import Mathlib

/-!
Verification development for the AiChatBot realtime chat backend
(`backend/main.py`, `backend/room_manager.py`, `backend/database.py`,
`backend/models.py`).

The Python source is shallowly embedded: strings are lists of characters,
the SQLite database is a record of lists, the Socket.IO side effects of a
handler are reified as an explicit list of `Act`ions, and the AI worker
loop (`process_ai_queue`) is a labelled transition system over the
coordinator state (queue, `ai_processing` flag, set of requests currently
inside `handle_ai_request`).
-/

/-- Python strings are modelled as lists of characters. -/
abbrev Str := List Char

/-- The ASCII characters matched by Python's regex class `\s` and stripped
by `str.strip()` (the Unicode-only whitespace code points are not modelled;
no claim depends on them). -/
def isPySpace (c : Char) : Bool :=
  c == ' ' || c == '\t' || c == '\n' || c == '\r' || c == '\x0b' || c == '\x0c'

/-- Characters matched by the regex atom `A` under `re.IGNORECASE`. -/
def isLetterA (c : Char) : Bool := c == 'a' || c == 'A'

/-- Characters matched by the regex atom `I` under `re.IGNORECASE`. -/
def isLetterI (c : Char) : Bool := c == 'i' || c == 'I'

/-- Python `str.strip()`: drop leading and trailing whitespace. -/
def pyStrip (t : Str) : Str :=
  ((t.dropWhile isPySpace).reverse.dropWhile isPySpace).reverse

/-- One attempt of the regex `@\s*AI` (with `re.IGNORECASE`) anchored at the
head of the input.  `\s*` is greedy, and since no whitespace character can
match `[Aa]`, backtracking never helps: the match consumes the maximal
whitespace run after `@` and then requires `[Aa][Ii]`.  Returns the suffix
after the match when it succeeds. -/
def mentionTail : Str → Option Str
  | a :: i :: tail => if isLetterA a && isLetterI i then some tail else none
  | _ => none

/-- See the comment on `mentionTail`: the whole anchored attempt. -/
def mentionMatch : Str → Option Str
  | [] => none
  | c :: rest =>
    if c = '@' then mentionTail (rest.dropWhile isPySpace) else none

theorem dropWhile_length_le (p : Char → Bool) (l : Str) :
    (l.dropWhile p).length ≤ l.length := by
  induction l with
  | nil => simp [List.dropWhile]
  | cons c rest ih =>
    by_cases h : p c = true
    · have hd : List.dropWhile p (c :: rest) = List.dropWhile p rest := by
        simp [List.dropWhile, h]
      rw [hd]
      simp only [List.length_cons]
      omega
    · have hd : List.dropWhile p (c :: rest) = c :: rest := by
        simp [List.dropWhile, h]
      rw [hd]

theorem mentionMatch_length_lt {l t : Str} (h : mentionMatch l = some t) :
    t.length < l.length := by
  cases l with
  | nil => simp [mentionMatch] at h
  | cons c rest =>
    simp only [mentionMatch] at h
    by_cases hc : c = '@'
    · rw [if_pos hc] at h
      cases hdw : rest.dropWhile isPySpace with
      | nil => rw [hdw] at h; simp [mentionTail] at h
      | cons a tl =>
        cases tl with
        | nil => rw [hdw] at h; simp [mentionTail] at h
        | cons i tail =>
          rw [hdw] at h
          simp only [mentionTail] at h
          by_cases hai : (isLetterA a && isLetterI i) = true
          · rw [if_pos hai] at h
            have h1 : (rest.dropWhile isPySpace).length ≤ rest.length :=
              dropWhile_length_le isPySpace rest
            rw [hdw] at h1
            simp only [List.length_cons] at h1
            obtain rfl : tail = t := by simpa using h
            simp only [List.length_cons]
            omega
          · rw [if_neg hai] at h
            simp at h
    · rw [if_neg hc] at h
      simp at h

/-- Embedding of `detect_ai_mention` in `main.py`: `re.search` of `@\s*AI`
(ignore case) anywhere in the message; both listed patterns coincide under
IGNORECASE. -/
def detect_ai_mention : Str → Bool
  | [] => false
  | c :: rest => (mentionMatch (c :: rest)).isSome || detect_ai_mention rest

/-- Fuel-indexed worker for `subMention` (structural recursion keeps the
function kernel-reducible; the fuel is always at least the list length). -/
def subMentionAux : Nat → Str → Str
  | _, [] => []
  | 0, rest => rest
  | fuel + 1, c :: rest =>
    match mentionMatch (c :: rest) with
    | some tail => subMentionAux fuel tail
    | none => c :: subMentionAux fuel rest

/-- The substitution pass of `extract_ai_query` in `main.py`:
`re.sub(r'@\s*AI', '', message, flags=re.IGNORECASE)` — a single
left-to-right scan deleting each non-overlapping match. -/
def subMention (l : Str) : Str := subMentionAux l.length l

theorem subMentionAux_congr :
    ∀ (fuel fuel' : Nat) (l : Str), l.length ≤ fuel → l.length ≤ fuel' →
      subMentionAux fuel l = subMentionAux fuel' l := by
  intro fuel
  induction fuel with
  | zero =>
    intro fuel' l h _
    have : l = [] := List.length_eq_zero.mp (Nat.le_zero.mp h)
    subst this
    cases fuel' <;> rfl
  | succ f ih =>
    intro fuel' l h h'
    cases l with
    | nil => cases fuel' <;> rfl
    | cons c rest =>
      cases fuel' with
      | zero => simp at h'
      | succ f' =>
        simp only [subMentionAux]
        cases hm : mentionMatch (c :: rest) with
        | some tail =>
          have hlt := mentionMatch_length_lt hm
          simp only [List.length_cons] at h h' hlt
          exact ih f' tail (by omega) (by omega)
        | none =>
          simp only [List.length_cons] at h h'
          rw [ih f' rest (by omega) (by omega)]

theorem subMention_nil : subMention [] = [] := rfl

theorem subMention_cons (c : Char) (rest : Str) :
    subMention (c :: rest) =
      match mentionMatch (c :: rest) with
      | some tail => subMention tail
      | none => c :: subMention rest := by
  show subMentionAux (c :: rest).length (c :: rest) = _
  simp only [List.length_cons, subMentionAux]
  cases hm : mentionMatch (c :: rest) with
  | some tail =>
    have hlt := mentionMatch_length_lt hm
    simp only [List.length_cons] at hlt
    show subMentionAux rest.length tail = subMentionAux tail.length tail
    exact subMentionAux_congr _ _ tail (by omega) (by omega)
  | none => rfl

/-- Embedding of `extract_ai_query` in `main.py`: remove the mentions,
strip, and fall back to the input string when the result is empty. -/
def extract_ai_query (message : Str) : Str :=
  let cleaned := pyStrip (subMention message)
  if cleaned = [] then message else cleaned

/-- Spec-level reading of the AI-mention pattern: the text contains `@`,
then optional whitespace, then `ai` case-insensitively, with no boundary
requirement on either side. -/
def ContainsMention (t : Str) : Prop :=
  ∃ pre ws a i rest, t = pre ++ '@' :: (ws ++ a :: i :: rest) ∧
    ws.all isPySpace ∧ isLetterA a ∧ isLetterI i

example : detect_ai_mention ("hey @AI what is up".toList) = true := by decide
example : detect_ai_mention ("no mention here".toList) = false := by decide
example : detect_ai_mention ("a@ aido".toList) = true := by decide
example : extract_ai_query ("@ai tell me a joke".toList) = "tell me a joke".toList := by decide
example : extract_ai_query ("@ai".toList) = "@ai".toList := by decide
example : subMention ("@@aiai".toList) = "@ai".toList := by decide
example : pyStrip ("  x ".toList) = "x".toList := by decide

/-! ## Data model (`models.py`, `database.py`) -/

/-- Row of the `users` table (the columns the claims depend on). -/
structure UserRec where
  id : Nat
  username : Str
deriving DecidableEq

/-- Row of the `rooms` table. -/
structure RoomRec where
  id : Nat
  name : Str
  description : Str
  created_by : Option Nat
  is_private : Bool
deriving DecidableEq

/-- Row of the `room_members` association table; `role` defaults to
`'member'` when a member is appended through the ORM relationship. -/
structure MemberRec where
  room_id : Nat
  user_id : Nat
  role : Str
deriving DecidableEq

/-- Row of the `messages` table: `user_id` is NULL for AI messages and
`triggered_by` is set only on AI messages. -/
structure MessageRec where
  room_id : Nat
  user_id : Option Nat
  content : Str
  is_ai : Bool
  triggered_by : Option Nat
deriving DecidableEq

/-- The persistent store.  `next_room_id` models SQLite AUTOINCREMENT. -/
structure DB where
  users : List UserRec
  rooms : List RoomRec
  members : List MemberRec
  messages : List MessageRec
  next_room_id : Nat
deriving DecidableEq

/-- The `ValueError` reasons raised by `RoomManager`. -/
inductive RoomError where
  | duplicateName
  | roomNotFound
  | userNotFound
  | notCreator
  | cannotDeleteDefaultRoom
  | alreadyMember
deriving DecidableEq

/-- Embedding of `init_db` in `database.py`: create the default room named
General (with no creator: `created_by` stays NULL) unless it exists. -/
def init_db (db : DB) : DB :=
  if db.rooms.any (fun r => r.name == "General".toList) then db
  else
    { db with
      rooms := db.rooms ++
        [⟨db.next_room_id, "General".toList,
          "Default chat room for everyone".toList, none, false⟩],
      next_room_id := db.next_room_id + 1 }

/-! ## Room service (`room_manager.py`) -/

/-- Embedding of `RoomManager.create_room`: reject a duplicate name, insert
the room, then append the creator (when that user id exists) to
`room.members`; the association row takes the column default role
`'member'` (`models.py`, `room_members` table). -/
def create_room (db : DB) (name description : Str) (creator_id : Nat)
    (is_private : Bool) : Except RoomError (DB × RoomRec) :=
  if db.rooms.any (fun r => r.name == name) then
    .error .duplicateName
  else
    let room : RoomRec := ⟨db.next_room_id, name, description, some creator_id, is_private⟩
    let db1 : DB := { db with rooms := db.rooms ++ [room], next_room_id := db.next_room_id + 1 }
    match db1.users.find? (fun u => u.id == creator_id) with
    | some _ =>
        .ok ({ db1 with members := db1.members ++ [⟨room.id, creator_id, "member".toList⟩] }, room)
    | none => .ok (db1, room)

/-- Embedding of `RoomManager.delete_room`: room lookup, then the creator
check (`room.created_by != user_id` — an Option-vs-id comparison, true in
particular whenever `created_by` is NULL), then the default-room name
check, then the cascading delete of the room, its memberships and its
messages. -/
def delete_room (db : DB) (room_id : Nat) (user_id : Nat) : Except RoomError DB :=
  match db.rooms.find? (fun r => r.id == room_id) with
  | none => .error .roomNotFound
  | some room =>
    if room.created_by ≠ some user_id then .error .notCreator
    else if room.name = "General".toList then .error .cannotDeleteDefaultRoom
    else .ok { db with
      rooms := db.rooms.filter (fun r => r.id != room_id),
      members := db.members.filter (fun m => m.room_id != room_id),
      messages := db.messages.filter (fun m => m.room_id != room_id) }

/-! ## Events and actions (`main.py`, Socket.IO side effects) -/

/-- Delivery scope of a `sio.emit` call: to everyone (no `room=` argument),
to one Socket.IO room, or to one connection (`room=sid`). -/
inductive Scope where
  | global
  | room (id : Nat)
  | conn (sid : Nat)
deriving DecidableEq

/-- The emitted event payloads the claims talk about. -/
inductive Evt where
  | ai_response_start (triggered_by : Str)
  | ai_response_chunk (chunk : Str)
  | ai_response_end
  | ai_error (message : Str)
  | ai_busy
  | chat_msg (m : MessageRec)
  | error_notice (message : Str)
deriving DecidableEq

/-- An `AIRequest` as enqueued by `chat_message` (a Python dict in the
source). -/
structure AIRequest where
  query : Str
  username : Str
  user_db_id : Option Nat
  room_id : Nat
  timestamp : Nat
deriving DecidableEq

/-- One observable action of a handler or of the AI worker, in program
order: an emit, a chunk consumed from the completion provider stream, a
sleep, a database message insert, or a queue put. -/
inductive Act where
  | emit (e : Evt) (scope : Scope)
  | consume (chunk : Str)
  | sleepMs (ms : Nat)
  | persist (m : MessageRec)
  | enqueue (r : AIRequest)
deriving DecidableEq

/-! ## Presence state and the chat-message handler (`main.py`) -/

/-- The in-memory `ChatState` maps (`users`, `user_db_ids`,
`user_current_rooms` keyed by Socket.IO sid, plus the default room id). -/
structure ChatState where
  users : Nat → Option Str
  user_db_ids : Nat → Option Nat
  user_current_rooms : Nat → Option Nat
  default_room_id : Nat

/-- Python `x or d` on an optional integer: falls through to `d` when `x`
is `None` or the falsy integer `0`. -/
def pyOrNat (x : Option Nat) (d : Nat) : Nat :=
  match x with
  | none => d
  | some r => if r = 0 then d else r

/-- Embedding of the `chat_message` Socket.IO handler: authentication
lookup, strip-and-drop of empty content, message persistence, room-scoped
broadcast, and conditional enqueue of an AI request.  Returns the updated
database and the handler's observable actions in program order. -/
def chat_message (st : ChatState) (db : DB) (sid : Nat) (text : Str)
    (now : Nat) : DB × List Act :=
  match st.users sid with
  | none => (db, [.emit (.error_notice "Not authenticated".toList) (.conn sid)])
  | some username =>
    let content := pyStrip text
    if content = [] then (db, [])
    else
      let user_db_id := st.user_db_ids sid
      let current_room_id := pyOrNat (st.user_current_rooms sid) st.default_room_id
      let m : MessageRec := ⟨current_room_id, user_db_id, content, false, none⟩
      let db1 : DB := { db with messages := db.messages ++ [m] }
      let base : List Act := [.persist m, .emit (.chat_msg m) (.room current_room_id)]
      if detect_ai_mention content then
        (db1, base ++ [.enqueue ⟨extract_ai_query content, username, user_db_id,
                                 current_room_id, now⟩])
      else
        (db1, base)

/-! ## The AI request handler (`handle_ai_request` in `main.py`) -/

/-- Behaviour of the completion provider during one request: either the
stream ends normally after yielding `chunks`, or it raises after yielding
`consumed`.  The provider itself is an external collaborator. -/
inductive ProviderOutcome where
  | ok (chunks : List Str)
  | fail (consumed : List Str) (err : Str)
deriving DecidableEq

/-- Error text of the `ai_error` emit in `handle_ai_request`. -/
def aiErrorText (err : Str) : Str := "AI response failed: ".toList ++ err

/-- Embedding of `handle_ai_request`: emit `ai_response_start` to the
target room; run `sync_stream` in the executor, which consumes the WHOLE
provider stream into a chunk list (raising on provider failure, in which
case no chunk is ever emitted and nothing is persisted, only a global
`ai_error`); then replay the collected chunks as room-scoped
`ai_response_chunk` events with a 0.01 s cosmetic sleep each, emit
`ai_response_end`, and persist the accumulated text as one AI message.
Prompt construction (`get_context_for_ai`) emits nothing and changes
nothing, so it does not appear among the actions. -/
def handle_ai_request (req : AIRequest) (outcome : ProviderOutcome) : List Act :=
  Act.emit (.ai_response_start req.username) (.room req.room_id) ::
  match outcome with
  | .fail consumed err =>
      consumed.map Act.consume ++ [.emit (.ai_error (aiErrorText err)) .global]
  | .ok chunks =>
      chunks.map Act.consume ++
      (chunks.flatMap fun c => [.emit (.ai_response_chunk c) (.room req.room_id), .sleepMs 10]) ++
      [.emit .ai_response_end (.room req.room_id),
       .persist ⟨req.room_id, none, chunks.foldl (fun acc c => acc ++ c) [], true,
                 req.user_db_id⟩]

/-! ## The AI coordinator loop (`process_ai_queue` in `main.py`) -/

/-- State shared between the chat handlers and the worker loop: the FIFO
`ai_queue`, the `ai_processing` flag, and (ghost, for stating the
single-flight claim) the list of requests currently being processed inside
`handle_ai_request`. -/
structure CoordState where
  queue : List AIRequest
  ai_processing : Bool
  active : List AIRequest
deriving DecidableEq

/-- Which atomic step of the system fires. -/
inductive CoordLabel where
  | clientEnqueue (r : AIRequest)
  | workerBusy
  | workerStart
  | workerFinish (outcome : ProviderOutcome)
deriving DecidableEq

/-- Small-step semantics of the queue/worker interaction in `main.py`:
`clientEnqueue` is `await chat_state.ai_queue.put(...)` in `chat_message`;
`workerBusy` is the `if chat_state.ai_processing` branch of the loop (emit
a global `ai_busy`, put the dequeued request back at the tail, sleep 2 s,
continue); `workerStart` dequeues when the flag is clear and sets it before
entering `handle_ai_request`; `workerFinish` is the return from
`handle_ai_request` with the `finally` block clearing the flag. -/
inductive CoordStep : CoordState → CoordLabel → List Act → CoordState → Prop where
  | clientEnqueue (r : AIRequest) (q : List AIRequest) (p : Bool) (a : List AIRequest) :
      CoordStep ⟨q, p, a⟩ (.clientEnqueue r) [.enqueue r] ⟨q ++ [r], p, a⟩
  | workerBusy (r : AIRequest) (rest a : List AIRequest) :
      CoordStep ⟨r :: rest, true, a⟩ .workerBusy
        [.emit .ai_busy .global, .sleepMs 2000] ⟨rest ++ [r], true, a⟩
  | workerStart (r : AIRequest) (rest a : List AIRequest) :
      CoordStep ⟨r :: rest, false, a⟩ .workerStart [] ⟨rest, true, r :: a⟩
  | workerFinish (r : AIRequest) (q : List AIRequest) (outcome : ProviderOutcome) :
      CoordStep ⟨q, true, [r]⟩ (.workerFinish outcome)
        (handle_ai_request r outcome) ⟨q, false, []⟩

/-- States reachable from server startup (empty queue, flag clear, nothing
being processed). -/
inductive Reachable : CoordState → Prop where
  | init : Reachable ⟨[], false, []⟩
  | step {s : CoordState} {l : CoordLabel} {acts : List Act} {s' : CoordState} :
      Reachable s → CoordStep s l acts s' → Reachable s'

/-! ## Trace observers -/

/-- Messages inserted into the database along a trace, in order. -/
def persistedMessages (tr : List Act) : List MessageRec :=
  tr.filterMap fun a => match a with | .persist m => some m | _ => none

/-- Chunks consumed from the provider stream along a trace, in order. -/
def consumedChunks (tr : List Act) : List Str :=
  tr.filterMap fun a => match a with | .consume c => some c | _ => none

/-- The `ai_response_chunk` emits along a trace: chunk text and scope. -/
def chunkEmits (tr : List Act) : List (Str × Scope) :=
  tr.filterMap fun a => match a with
    | .emit (.ai_response_chunk c) s => some (c, s)
    | _ => none

/-- Requests put on the AI queue along a trace, in order. -/
def enqueuedRequests (tr : List Act) : List AIRequest :=
  tr.filterMap fun a => match a with | .enqueue r => some r | _ => none

/-- Recognizer for an `ai_response_chunk` emit. -/
def isChunkEmit (a : Act) : Bool :=
  match a with | .emit (.ai_response_chunk _) _ => true | _ => false

/-! ## Lemmas about mention detection and extraction -/

theorem isLetterA_not_space {a : Char} (h : isLetterA a = true) : isPySpace a = false := by
  simp only [isLetterA, Bool.or_eq_true, beq_iff_eq] at h
  rcases h with rfl | rfl <;> decide

theorem isLetterI_not_space {i : Char} (h : isLetterI i = true) : isPySpace i = false := by
  simp only [isLetterI, Bool.or_eq_true, beq_iff_eq] at h
  rcases h with rfl | rfl <;> decide

theorem at_sign_not_space : isPySpace '@' = false := by decide

theorem takeWhile_all (p : Char → Bool) (l : Str) : ∀ x ∈ l.takeWhile p, p x = true :=
  fun _ hx => List.mem_takeWhile_imp hx

theorem dropWhile_append_all (p : Char → Bool) (ws l : Str)
    (h : ∀ x ∈ ws, p x = true) : (ws ++ l).dropWhile p = l.dropWhile p := by
  induction ws with
  | nil => simp
  | cons c w ih =>
    rw [List.cons_append, List.dropWhile_cons_of_pos (h c (List.mem_cons_self c w))]
    exact ih fun x hx => h x (List.mem_cons_of_mem c hx)

theorem mentionMatch_sound {l t : Str} (h : mentionMatch l = some t) :
    ∃ ws a i, l = '@' :: (ws ++ a :: i :: t) ∧
      (∀ x ∈ ws, isPySpace x = true) ∧ isLetterA a = true ∧ isLetterI i = true := by
  cases l with
  | nil => simp [mentionMatch] at h
  | cons c rest =>
    simp only [mentionMatch] at h
    by_cases hc : c = '@'
    · subst hc
      rw [if_pos rfl] at h
      cases hdw : rest.dropWhile isPySpace with
      | nil => rw [hdw] at h; simp [mentionTail] at h
      | cons a tl =>
        cases tl with
        | nil => rw [hdw] at h; simp [mentionTail] at h
        | cons i tail =>
          rw [hdw] at h
          simp only [mentionTail] at h
          by_cases hai : (isLetterA a && isLetterI i) = true
          · rw [if_pos hai] at h
            obtain rfl : tail = t := by simpa using h
            obtain ⟨ha, hi⟩ := Bool.and_eq_true_iff.mp hai
            refine ⟨rest.takeWhile isPySpace, a, i, ?_, takeWhile_all isPySpace rest, ha, hi⟩
            have hr : rest = rest.takeWhile isPySpace ++ rest.dropWhile isPySpace :=
              (List.takeWhile_append_dropWhile isPySpace rest).symm
            rw [hdw] at hr
            exact congrArg (List.cons '@') hr
          · rw [if_neg hai] at h
            simp at h
    · rw [if_neg hc] at h
      simp at h

theorem mentionMatch_complete {ws t : Str} {a i : Char}
    (hws : ∀ x ∈ ws, isPySpace x = true) (ha : isLetterA a = true)
    (hi : isLetterI i = true) :
    mentionMatch ('@' :: (ws ++ a :: i :: t)) = some t := by
  simp only [mentionMatch, if_pos rfl]
  rw [dropWhile_append_all isPySpace ws (a :: i :: t) hws]
  rw [List.dropWhile_cons_of_neg (by simp [isLetterA_not_space ha])]
  simp [mentionTail, ha, hi]

theorem detect_iff (t : Str) : detect_ai_mention t = true ↔ ContainsMention t := by
  induction t with
  | nil =>
    constructor
    · intro h; simp [detect_ai_mention] at h
    · rintro ⟨pre, ws, a, i, rest, heq, -⟩
      exact absurd heq (by simp)
  | cons c rest ih =>
    simp only [detect_ai_mention, Bool.or_eq_true]
    constructor
    · rintro (hm | hd)
      · obtain ⟨t', ht'⟩ := Option.isSome_iff_exists.mp hm
        obtain ⟨ws, a, i, heq, h1, h2, h3⟩ := mentionMatch_sound ht'
        exact ⟨[], ws, a, i, t', by simpa using heq,
               List.all_eq_true.mpr fun x hx => h1 x hx, h2, h3⟩
      · obtain ⟨pre, ws, a, i, r2, heq, h1, h2, h3⟩ := ih.mp hd
        exact ⟨c :: pre, ws, a, i, r2, by simp [heq], h1, h2, h3⟩
    · rintro ⟨pre, ws, a, i, r2, heq, h1, h2, h3⟩
      cases pre with
      | nil =>
        left
        simp only [List.nil_append, List.cons.injEq] at heq
        obtain ⟨rfl, rfl⟩ := heq
        rw [mentionMatch_complete (fun x hx => List.all_eq_true.mp h1 x hx) h2 h3]
        rfl
      | cons c2 pre' =>
        right
        simp only [List.cons_append, List.cons.injEq] at heq
        obtain ⟨rfl, heq⟩ := heq
        exact ih.mpr ⟨pre', ws, a, i, r2, heq, h1, h2, h3⟩

theorem ContainsMention_has_at {t : Str} (h : ContainsMention t) :
    ∃ x ∈ t, isPySpace x = false := by
  obtain ⟨pre, ws, a, i, rest, heq, -⟩ := h
  refine ⟨'@', ?_, at_sign_not_space⟩
  rw [heq]
  exact List.mem_append_right pre (List.mem_cons_self _ _)

theorem pyStrip_eq_nil_all_space {t : Str} (h : pyStrip t = []) :
    ∀ x ∈ t, isPySpace x = true := by
  unfold pyStrip at h
  have h2 : (t.dropWhile isPySpace).reverse.dropWhile isPySpace = [] := by
    have := congrArg List.reverse h
    simpa using this
  have h3 : ∀ x ∈ (t.dropWhile isPySpace).reverse, isPySpace x = true :=
    List.dropWhile_eq_nil_iff.mp h2
  have h4 : ∀ x ∈ t.dropWhile isPySpace, isPySpace x = true :=
    fun x hx => h3 x (List.mem_reverse.mpr hx)
  intro x hx
  have ht : t = t.takeWhile isPySpace ++ t.dropWhile isPySpace :=
    (List.takeWhile_append_dropWhile isPySpace t).symm
  rw [ht] at hx
  rcases List.mem_append.mp hx with hx1 | hx2
  · exact takeWhile_all isPySpace t x hx1
  · exact h4 x hx2

theorem pyStrip_decomp (t : Str) :
    ∃ lead trail, t = lead ++ pyStrip t ++ trail ∧
      (∀ x ∈ lead, isPySpace x = true) ∧ (∀ x ∈ trail, isPySpace x = true) := by
  refine ⟨t.takeWhile isPySpace,
          ((t.dropWhile isPySpace).reverse.takeWhile isPySpace).reverse,
          ?_, takeWhile_all isPySpace t, ?_⟩
  · have ht : t = t.takeWhile isPySpace ++ t.dropWhile isPySpace :=
      (List.takeWhile_append_dropWhile isPySpace t).symm
    have hd : t.dropWhile isPySpace =
        pyStrip t ++ ((t.dropWhile isPySpace).reverse.takeWhile isPySpace).reverse := by
      have hrev : (t.dropWhile isPySpace).reverse =
          (t.dropWhile isPySpace).reverse.takeWhile isPySpace ++
          (t.dropWhile isPySpace).reverse.dropWhile isPySpace :=
        (List.takeWhile_append_dropWhile isPySpace _).symm
      have h2 := congrArg List.reverse hrev
      rw [List.reverse_reverse, List.reverse_append] at h2
      exact h2
    calc t = t.takeWhile isPySpace ++ t.dropWhile isPySpace := ht
    _ = t.takeWhile isPySpace ++
          (pyStrip t ++ ((t.dropWhile isPySpace).reverse.takeWhile isPySpace).reverse) := by
        rw [← hd]
    _ = t.takeWhile isPySpace ++ pyStrip t ++
          ((t.dropWhile isPySpace).reverse.takeWhile isPySpace).reverse := by
        rw [List.append_assoc]
  · intro x hx
    exact takeWhile_all isPySpace _ x (List.mem_reverse.mp hx)

theorem ContainsMention_ws_left {lead X : Str}
    (hl : ∀ x ∈ lead, isPySpace x = true) :
    ContainsMention (lead ++ X) ↔ ContainsMention X := by
  induction lead with
  | nil => simp
  | cons c w ih =>
    constructor
    · rintro ⟨pre, ws, a, i, rest, heq, h1, h2, h3⟩
      cases pre with
      | nil =>
        simp only [List.nil_append, List.cons_append, List.cons.injEq] at heq
        have hc : isPySpace c = true := hl c (List.mem_cons_self c w)
        rw [heq.1] at hc
        rw [at_sign_not_space] at hc
        exact absurd hc (by simp)
      | cons c2 pre' =>
        simp only [List.cons_append, List.cons.injEq] at heq
        exact (ih fun x hx => hl x (List.mem_cons_of_mem c hx)).mp
          ⟨pre', ws, a, i, rest, heq.2, h1, h2, h3⟩
    · intro h
      obtain ⟨pre, ws, a, i, rest, heq, h1, h2, h3⟩ :=
        (ih fun x hx => hl x (List.mem_cons_of_mem c hx)).mpr h
      exact ⟨c :: pre, ws, a, i, rest, by simp [heq], h1, h2, h3⟩

theorem ContainsMention_ws_right {X trail : Str}
    (htr : ∀ x ∈ trail, isPySpace x = true) :
    ContainsMention (X ++ trail) ↔ ContainsMention X := by
  constructor
  · rintro ⟨pre, ws, a, i, rest, heq, h1, h2, h3⟩
    have heq' : X ++ trail = (pre ++ '@' :: (ws ++ [a, i])) ++ rest := by
      rw [heq]
      simp
    rcases List.append_eq_append_iff.mp heq' with ⟨w, hw1, hw2⟩ | ⟨w, hw1, hw2⟩
    · -- the match ends inside `trail`
      cases w with
      | nil =>
        refine ⟨pre, ws, a, i, [], ?_, h1, h2, h3⟩
        rw [List.append_nil] at hw1
        rw [← hw1]
      | cons d w' =>
        exfalso
        have hm : (pre ++ '@' :: (ws ++ [a, i])).getLast? = some i := by
          have : pre ++ '@' :: (ws ++ [a, i]) = (pre ++ '@' :: (ws ++ [a])) ++ [i] := by
            simp
          rw [this]
          exact List.getLast?_concat _
        rw [hw1, List.getLast?_append_of_ne_nil _ (by simp)] at hm
        have hmem : i ∈ (d :: w' : Str) := List.mem_of_mem_getLast? hm
        have : isPySpace i = true := htr i (hw2 ▸ List.mem_append_left rest hmem)
        rw [isLetterI_not_space h3] at this
        exact absurd this (by simp)
    · -- the match lies inside `X`
      refine ⟨pre, ws, a, i, w, ?_, h1, h2, h3⟩
      rw [hw1]
      simp
  · rintro ⟨pre, ws, a, i, rest, heq, h1, h2, h3⟩
    exact ⟨pre, ws, a, i, rest ++ trail, by rw [heq]; simp, h1, h2, h3⟩

theorem ContainsMention_pyStrip (t : Str) :
    ContainsMention (pyStrip t) ↔ ContainsMention t := by
  obtain ⟨lead, trail, ht, hl, htr⟩ := pyStrip_decomp t
  constructor
  · intro h
    rw [ht, List.append_assoc]
    exact (ContainsMention_ws_left hl).mpr ((ContainsMention_ws_right htr).mpr h)
  · intro h
    rw [ht, List.append_assoc] at h
    exact (ContainsMention_ws_right htr).mp ((ContainsMention_ws_left hl).mp h)

/-! ## Concrete fixtures used by witnesses and counterexamples -/

/-- A concrete AI request targeting room 5. -/
def reqA : AIRequest := ⟨"tell me a joke".toList, "alice".toList, some 1, 5, 42⟩

/-- A second concrete AI request targeting room 3. -/
def reqB : AIRequest := ⟨"ping".toList, "bob".toList, some 2, 3, 43⟩

/-- A chat state with one registered connection (sid 1, user alice, db id
1), no current room recorded for anyone, default room 7. -/
def stA : ChatState :=
  ⟨fun sid => if sid = 1 then some ("alice".toList) else none,
   fun sid => if sid = 1 then some 1 else none,
   fun _ => none, 7⟩

/-- An empty database. -/
def db0 : DB := ⟨[], [], [], [], 1⟩

/-- The database right after `init_db` on an empty store: only the default
General room, whose `created_by` is NULL. -/
def dbG : DB := init_db db0

/-- A database with one user and no rooms. -/
def db6 : DB := ⟨[⟨1, "alice".toList⟩], [], [], [], 1⟩

/-- A database where the room name Cool is already taken. -/
def db7 : DB :=
  ⟨[⟨1, "alice".toList⟩], [⟨1, "Cool".toList, [], some 1, false⟩],
   [⟨1, 1, "member".toList⟩], [], 2⟩

/-! ## Claim C1 — single-flight AI processing -/

/-- Invariant of the coordinator loop: at most one request is inside
`handle_ai_request`, and none is when the `ai_processing` flag is clear. -/
theorem reachable_single_flight_inv (s : CoordState) (hs : Reachable s) :
    s.active.length ≤ 1 ∧ (s.ai_processing = false → s.active = []) := by
  induction hs with
  | init => exact ⟨by simp, fun _ => rfl⟩
  | step hr hstep ih =>
    cases hstep with
    | clientEnqueue r q p a => exact ih
    | workerBusy r rest a => exact ⟨ih.1, fun h => absurd h (by simp)⟩
    | workerStart r rest a =>
      have ha : a = [] := ih.2 rfl
      subst ha
      exact ⟨by simp, fun h => absurd h (by simp)⟩
    | workerFinish r q outcome => exact ⟨by simp, fun _ => rfl⟩

/-- Claim C1: at every reachable coordinator state, at most one AIRequest
is being processed by `handle_ai_request`; moreover the worker only begins
processing (takes a `workerStart` step) from a state where the
`ai_processing` flag is clear, and that step sets the flag. -/
theorem ai_single_flight :
    (∀ s : CoordState, Reachable s → s.active.length ≤ 1) ∧
    (∀ (s : CoordState) (acts : List Act) (s' : CoordState),
      CoordStep s .workerStart acts s' →
        s.ai_processing = false ∧ s'.ai_processing = true) := by
  constructor
  · intro s hs
    exact (reachable_single_flight_inv s hs).1
  · intro s acts s' hstep
    cases hstep
    exact ⟨rfl, rfl⟩

/-- Witness for C1 at concrete states: the initial state is reachable with
no active request, and a concrete `workerStart` step flips the flag. -/
theorem ai_single_flight_witness :
    ((⟨[], false, []⟩ : CoordState).active.length ≤ 1) ∧
    (CoordStep ⟨[reqA], false, []⟩ .workerStart [] ⟨[], true, [reqA]⟩ ∧
      (⟨[reqA], false, []⟩ : CoordState).ai_processing = false ∧
      (⟨[], true, [reqA]⟩ : CoordState).ai_processing = true) :=
  ⟨ai_single_flight.1 _ Reachable.init,
   ⟨CoordStep.workerStart reqA [] [],
    ai_single_flight.2 _ _ _ (CoordStep.workerStart reqA [] [])⟩⟩

/-! ## Claim C8 — busy requeue to the back of the queue -/

/-- Claim C8: whenever the worker dequeues (a `workerBusy` or `workerStart`
step) while the `ai_processing` flag is set, the step is the busy branch:
it broadcasts a global `ai_busy` notice and sleeps the fixed 2 s backoff,
moves the dequeued request unchanged to the back of the queue, leaves the
flag set and processes nothing (the active set is unchanged). -/
theorem busy_requeue (s : CoordState) (l : CoordLabel) (acts : List Act)
    (s' : CoordState) (r : AIRequest) (rest : List AIRequest)
    (hstep : CoordStep s l acts s')
    (hq : s.queue = r :: rest) (hp : s.ai_processing = true)
    (hl : l = .workerBusy ∨ l = .workerStart) :
    l = .workerBusy ∧ acts = [.emit .ai_busy .global, .sleepMs 2000] ∧
      s'.queue = rest ++ [r] ∧ s'.ai_processing = true ∧ s'.active = s.active := by
  cases hstep with
  | clientEnqueue r2 q p a => rcases hl with h | h <;> simp at h
  | workerBusy r2 rest2 a =>
    injection hq with h1 h2
    subst h1
    subst h2
    exact ⟨rfl, rfl, rfl, rfl, rfl⟩
  | workerStart r2 rest2 a => simp at hp
  | workerFinish r2 q outcome => rcases hl with h | h <;> simp at h

/-- Witness for C8 at a concrete busy state. -/
theorem busy_requeue_witness :
    (CoordStep ⟨[reqA], true, [reqB]⟩ .workerBusy
        [Act.emit .ai_busy .global, Act.sleepMs 2000] ⟨[] ++ [reqA], true, [reqB]⟩ ∧
      (⟨[reqA], true, [reqB]⟩ : CoordState).queue = reqA :: [] ∧
      (⟨[reqA], true, [reqB]⟩ : CoordState).ai_processing = true) ∧
    (CoordLabel.workerBusy = CoordLabel.workerBusy ∧
      [Act.emit .ai_busy .global, Act.sleepMs 2000] =
        [Act.emit .ai_busy .global, Act.sleepMs 2000] ∧
      (⟨[] ++ [reqA], true, [reqB]⟩ : CoordState).queue = [] ++ [reqA] ∧
      (⟨[] ++ [reqA], true, [reqB]⟩ : CoordState).ai_processing = true ∧
      (⟨[] ++ [reqA], true, [reqB]⟩ : CoordState).active =
        (⟨[reqA], true, [reqB]⟩ : CoordState).active) :=
  ⟨⟨CoordStep.workerBusy reqA [] [reqB], rfl, rfl⟩,
   busy_requeue _ _ _ _ reqA [] (CoordStep.workerBusy reqA [] [reqB]) rfl rfl (Or.inl rfl)⟩

/-! ## Trace observer lemmas for `handle_ai_request` -/

theorem consumedChunks_nil : consumedChunks [] = [] := rfl

theorem consumedChunks_append (l1 l2 : List Act) :
    consumedChunks (l1 ++ l2) = consumedChunks l1 ++ consumedChunks l2 :=
  List.filterMap_append l1 l2 _

theorem persistedMessages_append (l1 l2 : List Act) :
    persistedMessages (l1 ++ l2) = persistedMessages l1 ++ persistedMessages l2 :=
  List.filterMap_append l1 l2 _

theorem chunkEmits_append (l1 l2 : List Act) :
    chunkEmits (l1 ++ l2) = chunkEmits l1 ++ chunkEmits l2 :=
  List.filterMap_append l1 l2 _

theorem enqueuedRequests_append (l1 l2 : List Act) :
    enqueuedRequests (l1 ++ l2) = enqueuedRequests l1 ++ enqueuedRequests l2 :=
  List.filterMap_append l1 l2 _

theorem consumedChunks_map_consume (l : List Str) :
    consumedChunks (l.map Act.consume) = l := by
  induction l with
  | nil => rfl
  | cons c cs ih =>
    show c :: consumedChunks (cs.map Act.consume) = c :: cs
    rw [ih]

theorem persistedMessages_map_consume (l : List Str) :
    persistedMessages (l.map Act.consume) = [] := by
  induction l with
  | nil => rfl
  | cons c cs ih =>
    show persistedMessages (cs.map Act.consume) = []
    exact ih

theorem chunkEmits_map_consume (l : List Str) :
    chunkEmits (l.map Act.consume) = [] := by
  induction l with
  | nil => rfl
  | cons c cs ih =>
    show chunkEmits (cs.map Act.consume) = []
    exact ih

theorem enqueuedRequests_map_consume (l : List Str) :
    enqueuedRequests (l.map Act.consume) = [] := by
  induction l with
  | nil => rfl
  | cons c cs ih =>
    show enqueuedRequests (cs.map Act.consume) = []
    exact ih

/-- The replay block of `handle_ai_request` for one room. -/
def replayBlock (room : Nat) (chunks : List Str) : List Act :=
  chunks.flatMap fun c => [.emit (.ai_response_chunk c) (.room room), .sleepMs 10]

theorem consumedChunks_replayBlock (room : Nat) (chunks : List Str) :
    consumedChunks (replayBlock room chunks) = [] := by
  induction chunks with
  | nil => rfl
  | cons c cs ih =>
    show consumedChunks (replayBlock room cs) = []
    exact ih

theorem persistedMessages_replayBlock (room : Nat) (chunks : List Str) :
    persistedMessages (replayBlock room chunks) = [] := by
  induction chunks with
  | nil => rfl
  | cons c cs ih =>
    show persistedMessages (replayBlock room cs) = []
    exact ih

theorem chunkEmits_replayBlock (room : Nat) (chunks : List Str) :
    chunkEmits (replayBlock room chunks) = chunks.map (fun c => (c, Scope.room room)) := by
  induction chunks with
  | nil => rfl
  | cons c cs ih =>
    show (c, Scope.room room) :: chunkEmits (replayBlock room cs) = _
    rw [ih, List.map_cons]

theorem enqueuedRequests_replayBlock (room : Nat) (chunks : List Str) :
    enqueuedRequests (replayBlock room chunks) = [] := by
  induction chunks with
  | nil => rfl
  | cons c cs ih =>
    show enqueuedRequests (replayBlock room cs) = []
    exact ih

theorem handle_ok_eq (req : AIRequest) (chunks : List Str) :
    handle_ai_request req (.ok chunks) =
      Act.emit (.ai_response_start req.username) (.room req.room_id) ::
      (chunks.map Act.consume ++ replayBlock req.room_id chunks ++
       [Act.emit .ai_response_end (.room req.room_id),
        Act.persist ⟨req.room_id, none, chunks.foldl (fun acc c => acc ++ c) [], true,
                     req.user_db_id⟩]) := rfl

theorem foldl_append_eq_flatten (l : List Str) :
    l.foldl (fun acc c => acc ++ c) [] = l.flatten := by
  have key : ∀ (l : List Str) (acc : Str),
      l.foldl (fun acc c => acc ++ c) acc = acc ++ l.flatten := by
    intro l
    induction l with
    | nil => intro acc; simp
    | cons c cs ih =>
      intro acc
      simp only [List.foldl_cons, ih, List.flatten_cons, List.append_assoc]
  simpa using key l []

theorem takeWhile_append_of_all (p : Act → Bool) (l1 l2 : List Act)
    (h : ∀ x ∈ l1, p x = true) :
    (l1 ++ l2).takeWhile p = l1 ++ l2.takeWhile p := by
  induction l1 with
  | nil => simp
  | cons c w ih =>
    rw [List.cons_append, List.takeWhile_cons_of_pos (h c (List.mem_cons_self c w))]
    rw [ih fun x hx => h x (List.mem_cons_of_mem c hx), List.cons_append]

theorem persistedMessages_cons_emit (e : Evt) (s : Scope) (tr : List Act) :
    persistedMessages (Act.emit e s :: tr) = persistedMessages tr := rfl

theorem consumedChunks_cons_emit (e : Evt) (s : Scope) (tr : List Act) :
    consumedChunks (Act.emit e s :: tr) = consumedChunks tr := rfl

theorem enqueuedRequests_cons_emit (e : Evt) (s : Scope) (tr : List Act) :
    enqueuedRequests (Act.emit e s :: tr) = enqueuedRequests tr := rfl

theorem chunkEmits_cons_of_not (a : Act) (tr : List Act) (h : isChunkEmit a = false) :
    chunkEmits (a :: tr) = chunkEmits tr := by
  cases a with
  | emit e s =>
    cases e with
    | ai_response_chunk c => simp [isChunkEmit] at h
    | ai_response_start u => rfl
    | ai_response_end => rfl
    | ai_error m => rfl
    | ai_busy => rfl
    | chat_msg m => rfl
    | error_notice m => rfl
  | consume c => rfl
  | sleepMs n => rfl
  | persist m => rfl
  | enqueue r => rfl

theorem takeWhile_cons_true (p : Act → Bool) (a : Act) (l : List Act) (h : p a = true) :
    (a :: l).takeWhile p = a :: l.takeWhile p := List.takeWhile_cons_of_pos h

theorem takeWhile_replay_cons (room : Nat) (c : Str) (cs : List Str) (suffix : List Act) :
    (replayBlock room (c :: cs) ++ suffix).takeWhile (fun a => !(isChunkEmit a)) = [] := by
  have h : ¬ ((fun a => !(isChunkEmit a))
      (Act.emit (.ai_response_chunk c) (.room room)) = true) := by
    simp [isChunkEmit]
  exact List.takeWhile_cons_of_neg h

/-! ## Claim C3 — streaming vs. buffering -/

/-- Claim C3 as stated, over a trace: before the worker consumes chunk
`k + 1` from the provider it must already have emitted chunk `k`; in
particular, with at least two chunks, some chunk event precedes the end of
stream consumption. -/
def EagerPerChunk (tr : List Act) : Prop :=
  ∀ n k, k + 1 ≤ (consumedChunks (tr.take n)).length →
    k ≤ (chunkEmits (tr.take n)).length

/-- Counterexample to claim C3: on a two-chunk stream the code consumes
both chunks (prefix of length 3 of the trace) before emitting any
room-scoped chunk event — `sync_stream` collects the whole provider stream
in the executor before the replay loop starts. -/
theorem streaming_buffered_counterexample :
    ¬ EagerPerChunk (handle_ai_request reqA (.ok ["ha".toList, "haha".toList])) := by
  intro h
  have h2 := h 3 1 (by decide)
  exact absurd h2 (by decide)

/-- Claim C3 (amended): for every request and provider stream, the
coordinator fully buffers — it consumes the whole stream first (every
`consume` precedes every chunk emit, so the chunk emits in any
emit-free prefix account for nothing), then replays exactly the received
chunks, in order, as room-scoped `ai_response_chunk` events. -/
theorem streaming_is_buffered (req : AIRequest) (chunks : List Str) :
    consumedChunks (handle_ai_request req (.ok chunks)) = chunks ∧
    chunkEmits (handle_ai_request req (.ok chunks)) =
      chunks.map (fun c => (c, Scope.room req.room_id)) ∧
    consumedChunks ((handle_ai_request req (.ok chunks)).takeWhile
      (fun a => !(isChunkEmit a))) = chunks := by
  refine ⟨?_, ?_, ?_⟩
  · rw [handle_ok_eq, consumedChunks_cons_emit, consumedChunks_append, consumedChunks_append,
        consumedChunks_map_consume, consumedChunks_replayBlock]
    show chunks ++ [] ++ [] = chunks
    simp
  · rw [handle_ok_eq,
        chunkEmits_cons_of_not (.emit (.ai_response_start req.username) (.room req.room_id)) _ rfl,
        chunkEmits_append, chunkEmits_append, chunkEmits_map_consume, chunkEmits_replayBlock]
    show [] ++ chunks.map (fun c => (c, Scope.room req.room_id)) ++ [] = _
    simp
  · rw [handle_ok_eq]
    rw [takeWhile_cons_true (fun a => !(isChunkEmit a))
        (Act.emit (.ai_response_start req.username) (.room req.room_id)) _ rfl]
    rw [consumedChunks_cons_emit, List.append_assoc]
    rw [takeWhile_append_of_all (fun a => !(isChunkEmit a)) (chunks.map Act.consume) _
      (fun x hx => by obtain ⟨c, -, rfl⟩ := List.mem_map.mp hx; rfl)]
    cases chunks with
    | nil => rfl
    | cons c cs =>
      rw [takeWhile_replay_cons]
      rw [consumedChunks_append, consumedChunks_map_consume, consumedChunks_nil,
          List.append_nil]

/-! ## Claim C4 — provider failure handling -/

/-- Claim C4 as stated, scope part: the failure event is emitted scoped to
the request's target room. -/
def ClaimRoomScopedFailure (tr : List Act) (room : Nat) : Prop :=
  ∃ msg, Act.emit (.ai_error msg) (.room room) ∈ tr

/-- Counterexample to claim C4: on a provider failure at start, the trace
is exactly the room-scoped start event followed by an `ai_error` emitted
GLOBALLY (the `sio.emit('ai_error', ...)` call passes no `room=`), so no
room-scoped failure event exists for target room 5. -/
theorem provider_failure_counterexample :
    handle_ai_request reqA (.fail [] ("boom".toList)) =
      [Act.emit (.ai_response_start ("alice".toList)) (.room 5),
       Act.emit (.ai_error ("AI response failed: boom".toList)) .global] ∧
    ¬ ClaimRoomScopedFailure (handle_ai_request reqA (.fail [] ("boom".toList))) 5 := by
  constructor
  · decide
  · rintro ⟨msg, hmem⟩
    have heq : handle_ai_request reqA (.fail [] ("boom".toList)) =
        [Act.emit (.ai_response_start ("alice".toList)) (.room 5),
         Act.emit (.ai_error ("AI response failed: boom".toList)) .global] := by decide
    rw [heq] at hmem
    simp at hmem

/-- Claim C4 (amended): on any provider failure (at start or mid-stream),
the handler persists no message (not even a partial one), emits no chunk
event, enqueues nothing (no retry), and emits one human-readable `ai_error`
— but GLOBALLY, to all connections, not scoped to the target room. -/
theorem provider_failure_behaviour (req : AIRequest) (consumed : List Str) (err : Str) :
    persistedMessages (handle_ai_request req (.fail consumed err)) = [] ∧
    Act.emit (.ai_error (aiErrorText err)) .global ∈ handle_ai_request req (.fail consumed err) ∧
    chunkEmits (handle_ai_request req (.fail consumed err)) = [] ∧
    enqueuedRequests (handle_ai_request req (.fail consumed err)) = [] := by
  have heq : handle_ai_request req (.fail consumed err) =
      Act.emit (.ai_response_start req.username) (.room req.room_id) ::
      (consumed.map Act.consume ++ [Act.emit (.ai_error (aiErrorText err)) .global]) := rfl
  refine ⟨?_, ?_, ?_, ?_⟩
  · rw [heq, persistedMessages_cons_emit, persistedMessages_append,
        persistedMessages_map_consume]
    rfl
  · rw [heq]
    simp
  · rw [heq,
        chunkEmits_cons_of_not (.emit (.ai_response_start req.username) (.room req.room_id)) _ rfl,
        chunkEmits_append, chunkEmits_map_consume]
    rfl
  · rw [heq, enqueuedRequests_cons_emit, enqueuedRequests_append,
        enqueuedRequests_map_consume]
    rfl

/-! ## Claim C7 — successful completion persists one message after the end event -/

/-- Claim C7: when the provider stream is exhausted without error, the
handler persists exactly one message — AI-authored (`user_id` NULL,
`is_ai` true), `triggered_by` the requesting identity's user id, content
the in-order concatenation of all streamed chunks, in the target room —
and the room-scoped `ai_response_end` event is emitted immediately before
that persist, i.e. the trace ends with the end event followed by the
persist. -/
theorem ai_completion_persists (req : AIRequest) (chunks : List Str) :
    persistedMessages (handle_ai_request req (.ok chunks)) =
      [⟨req.room_id, none, chunks.flatten, true, req.user_db_id⟩] ∧
    ∃ pre, handle_ai_request req (.ok chunks) =
      pre ++ [Act.emit .ai_response_end (.room req.room_id),
              Act.persist ⟨req.room_id, none, chunks.flatten, true, req.user_db_id⟩] := by
  constructor
  · rw [handle_ok_eq, persistedMessages_cons_emit, persistedMessages_append,
        persistedMessages_append, persistedMessages_map_consume,
        persistedMessages_replayBlock, foldl_append_eq_flatten]
    rfl
  · refine ⟨Act.emit (.ai_response_start req.username) (.room req.room_id) ::
        (chunks.map Act.consume ++ replayBlock req.room_id chunks), ?_⟩
    rw [handle_ok_eq, foldl_append_eq_flatten]
    simp [List.append_assoc]

deriving instance DecidableEq for Except

/-! ## Claim C5 — deleting the default room -/

/-- Counterexample to claim C5: the default General room created by
`init_db` has `created_by` NULL, and `delete_room` performs the creator
check BEFORE the default-room check, so `None != user_id` is true for
every requester and the failure is `notCreator` (the Python message is
`Only room creator can delete the room`), never `cannotDeleteDefaultRoom`. -/
theorem delete_general_counterexample :
    delete_room dbG 1 7 = .error .notCreator ∧
    delete_room dbG 1 7 ≠ .error .cannotDeleteDefaultRoom := by
  constructor
  · decide
  · decide

/-- Claim C5 (amended): deleting the default General room (whose
`created_by` is NULL, as created by `init_db`) always fails — leaving
rooms, messages and memberships untouched since the error is raised before
any delete — but with the `notCreator` error, for every requester. -/
theorem delete_general_notCreator (db : DB) (rid uid : Nat) (room : RoomRec)
    (hfind : db.rooms.find? (fun r => r.id == rid) = some room)
    (hname : room.name = "General".toList) (hcreator : room.created_by = none) :
    delete_room db rid uid = .error .notCreator := by
  unfold delete_room
  rw [hfind]
  simp [hcreator]

/-- Witness for C5 (amended) on the freshly initialized database and an
arbitrary concrete requester. -/
theorem delete_general_notCreator_witness :
    dbG.rooms.find? (fun r => r.id == 1) =
      some ⟨1, "General".toList, "Default chat room for everyone".toList, none, false⟩ ∧
    (⟨1, "General".toList, "Default chat room for everyone".toList, none, false⟩ :
      RoomRec).name = "General".toList ∧
    (⟨1, "General".toList, "Default chat room for everyone".toList, none, false⟩ :
      RoomRec).created_by = none ∧
    delete_room dbG 1 7 = .error .notCreator :=
  ⟨by decide, by decide, rfl,
   delete_general_notCreator dbG 1 7
     ⟨1, "General".toList, "Default chat room for everyone".toList, none, false⟩
     (by decide) (by decide) rfl⟩

/-! ## Claim C6 — room creation -/

/-- Claim C6 as stated, admin part: a successful creation records the
creator as a member with the admin role. -/
def ClaimCreatorAdmin (db : DB) (name desc : Str) (creator : Nat) (priv : Bool) : Prop :=
  ∀ db' room, create_room db name desc creator priv = .ok (db', room) →
    ∃ m ∈ db'.members, m.room_id = room.id ∧ m.user_id = creator ∧ m.role = "admin".toList

/-- Counterexample to claim C6: creating a fresh room records the creator
membership with the association table's DEFAULT role `member` (the code
appends via `room.members.append(creator)` and never sets a role), not
`admin`. -/
theorem create_room_role_counterexample :
    create_room db6 ("Cool".toList) [] 1 false =
      .ok (⟨[⟨1, "alice".toList⟩], [⟨1, "Cool".toList, [], some 1, false⟩],
            [⟨1, 1, "member".toList⟩], [], 2⟩,
           ⟨1, "Cool".toList, [], some 1, false⟩) ∧
    ¬ ClaimCreatorAdmin db6 ("Cool".toList) [] 1 false := by
  constructor
  · decide
  · intro h
    obtain ⟨m, hm, -, -, hrole⟩ := h
      ⟨[⟨1, "alice".toList⟩], [⟨1, "Cool".toList, [], some 1, false⟩],
        [⟨1, 1, "member".toList⟩], [], 2⟩
      ⟨1, "Cool".toList, [], some 1, false⟩ (by decide)
    simp at hm
    subst hm
    exact absurd hrole (by decide)

/-- Claim C6 (amended): when a room with the given name exists the call
fails with `duplicateName` (no room, no membership — the error is raised
before any insert); when the name is fresh and the creator exists, the
room is created and the creator is added as a member with the DEFAULT
role `member`, not `admin`. -/
theorem create_room_checks (db : DB) (name desc : Str) (creator : Nat) (priv : Bool) :
    (db.rooms.any (fun r => r.name == name) = true →
      create_room db name desc creator priv = .error .duplicateName) ∧
    (∀ u, db.rooms.any (fun r => r.name == name) = false →
      db.users.find? (fun x => x.id == creator) = some u →
      create_room db name desc creator priv =
        .ok ({ db with
                rooms := db.rooms ++ [⟨db.next_room_id, name, desc, some creator, priv⟩],
                next_room_id := db.next_room_id + 1,
                members := db.members ++ [⟨db.next_room_id, creator, "member".toList⟩] },
             ⟨db.next_room_id, name, desc, some creator, priv⟩)) := by
  constructor
  · intro hdup
    simp [create_room, hdup]
  · intro u hdup hfind
    simp [create_room, hdup, hfind]

/-- Witness for C6 (amended): a duplicate name is rejected on `db7` and a
fresh creation on `db6` records the `member` role. -/
theorem create_room_checks_witness :
    (db7.rooms.any (fun r => r.name == "Cool".toList) = true ∧
      create_room db7 ("Cool".toList) [] 2 false = .error .duplicateName) ∧
    (db6.rooms.any (fun r => r.name == "Cool".toList) = false ∧
      db6.users.find? (fun x => x.id == 1) = some ⟨1, "alice".toList⟩ ∧
      create_room db6 ("Cool".toList) [] 1 false =
        .ok ({ db6 with
                rooms := db6.rooms ++ [⟨db6.next_room_id, "Cool".toList, [], some 1, false⟩],
                next_room_id := db6.next_room_id + 1,
                members := db6.members ++ [⟨db6.next_room_id, 1, "member".toList⟩] },
             ⟨db6.next_room_id, "Cool".toList, [], some 1, false⟩)) :=
  ⟨⟨by decide, (create_room_checks db7 ("Cool".toList) [] 2 false).1 (by decide)⟩,
   ⟨by decide, by decide,
    (create_room_checks db6 ("Cool".toList) [] 1 false).2 ⟨1, "alice".toList⟩
      (by decide) (by decide)⟩⟩

/-! ## Claim C2 — mention detection and query extraction -/

/-- Claim C2 as stated, fallback part: the query is the message text with
every mention removed and stripped, except that when that is empty the
WHOLE ORIGINAL message text is used. -/
def ClaimFallbackWholeText (text q : Str) : Prop :=
  q = (if pyStrip (subMention text) = [] then text else pyStrip (subMention text))

/-- Counterexample to claim C2: for the message text `"  @ai  "` the
mention removal plus strip yields the empty string, so the claim says the
whole original text `"  @ai  "` becomes the query — but the handler strips
the incoming text BEFORE extraction, so the enqueued query is `"@ai"`. -/
theorem mention_enqueue_counterexample :
    enqueuedRequests (chat_message stA db0 1 ("  @ai  ".toList) 42).2 =
      [⟨"@ai".toList, "alice".toList, some 1, 7, 42⟩] ∧
    pyStrip (subMention ("  @ai  ".toList)) = [] ∧
    ¬ ClaimFallbackWholeText ("  @ai  ".toList) ("@ai".toList) := by
  refine ⟨by decide, by decide, ?_⟩
  intro h
  unfold ClaimFallbackWholeText at h
  exact absurd h (by decide)

/-- Claim C2 (amended): for a registered connection, a chat message
enqueues an AI request if and only if the raw text contains `@`, optional
whitespace, then `ai` case-insensitively (no word boundary); the enqueued
query is the whitespace-STRIPPED text with every mention removed and
re-stripped, falling back to the stripped text (not the raw original) when
that removal leaves nothing. -/
theorem mention_enqueue (st : ChatState) (db : DB) (sid : Nat) (text : Str)
    (now : Nat) (u : Str) (hreg : st.users sid = some u) :
    ((∃ r, Act.enqueue r ∈ (chat_message st db sid text now).2) ↔ ContainsMention text) ∧
    (∀ r, Act.enqueue r ∈ (chat_message st db sid text now).2 →
      r.query = (if pyStrip (subMention (pyStrip text)) = []
                 then pyStrip text else pyStrip (subMention (pyStrip text)))) := by
  simp only [chat_message, hreg]
  by_cases hc : pyStrip text = []
  · rw [if_pos hc]
    refine ⟨⟨?_, ?_⟩, ?_⟩
    · rintro ⟨r, hr⟩
      simp at hr
    · intro hcm
      exfalso
      obtain ⟨x, hx, hxs⟩ := ContainsMention_has_at hcm
      have hall := pyStrip_eq_nil_all_space hc x hx
      rw [hxs] at hall
      exact absurd hall (by simp)
    · intro r hr
      simp at hr
  · rw [if_neg hc]
    by_cases hd : detect_ai_mention (pyStrip text) = true
    · rw [if_pos hd]
      have hcm : ContainsMention text :=
        (ContainsMention_pyStrip text).mp ((detect_iff _).mp hd)
      refine ⟨⟨fun _ => hcm, fun _ => ?_⟩, ?_⟩
      · exact ⟨⟨extract_ai_query (pyStrip text), u, st.user_db_ids sid,
                pyOrNat (st.user_current_rooms sid) st.default_room_id, now⟩, by simp⟩
      · intro r hr
        simp at hr
        subst hr
        simp [extract_ai_query]
    · rw [if_neg hd]
      refine ⟨⟨?_, ?_⟩, ?_⟩
      · rintro ⟨r, hr⟩
        simp at hr
      · intro hcm
        exact absurd ((detect_iff _).mpr ((ContainsMention_pyStrip text).mpr hcm)) hd
      · intro r hr
        simp at hr

/-- Witness for C2 (amended) on the spec's own example message. -/
theorem mention_enqueue_witness :
    stA.users 1 = some ("alice".toList) ∧
    (((∃ r, Act.enqueue r ∈ (chat_message stA db0 1 ("@ai tell me a joke".toList) 42).2) ↔
        ContainsMention ("@ai tell me a joke".toList)) ∧
      (∀ r, Act.enqueue r ∈ (chat_message stA db0 1 ("@ai tell me a joke".toList) 42).2 →
        r.query = (if pyStrip (subMention (pyStrip ("@ai tell me a joke".toList))) = []
                   then pyStrip ("@ai tell me a joke".toList)
                   else pyStrip (subMention (pyStrip ("@ai tell me a joke".toList)))))) :=
  ⟨rfl, mention_enqueue stA db0 1 ("@ai tell me a joke".toList) 42 ("alice".toList) rfl⟩

/-! ## Claim C9 — empty chat message -/

/-- Claim C9 as stated, notice part: an empty message produces a notice
delivered to the originating connection. -/
def ClaimEmptyNotice (st : ChatState) (db : DB) (sid : Nat) (text : Str) (now : Nat) : Prop :=
  ∃ e, Act.emit e (.conn sid) ∈ (chat_message st db sid text now).2

/-- Counterexample to claim C9: a registered connection sending a
whitespace-only message gets NOTHING back — the handler hits the silent
`return` (`if not content: return`), emitting no event at all (in
particular no notice to the originator), persisting nothing. -/
theorem empty_message_counterexample :
    chat_message stA db0 1 ("   ".toList) 5 = (db0, []) ∧
    ¬ ClaimEmptyNotice stA db0 1 ("   ".toList) 5 := by
  constructor
  · decide
  · rintro ⟨e, he⟩
    have heq : chat_message stA db0 1 ("   ".toList) 5 = (db0, []) := by decide
    rw [heq] at he
    simp at he

/-- Claim C9 (amended): for a registered connection, an empty (or
whitespace-only) chat message is silently dropped: no event is emitted to
anyone — not even the originator — no message is persisted, nothing is
broadcast and no AI request is enqueued. -/
theorem empty_message_dropped (st : ChatState) (db : DB) (sid : Nat) (text : Str)
    (now : Nat) (u : Str) (hreg : st.users sid = some u) (hempty : pyStrip text = []) :
    chat_message st db sid text now = (db, []) := by
  simp [chat_message, hreg, hempty]

/-- Witness for C9 (amended). -/
theorem empty_message_dropped_witness :
    stA.users 1 = some ("alice".toList) ∧ pyStrip ("   ".toList) = [] ∧
    chat_message stA db0 1 ("   ".toList) 5 = (db0, []) :=
  ⟨rfl, by decide,
   empty_message_dropped stA db0 1 ("   ".toList) 5 ("alice".toList) rfl (by decide)⟩

/-! ## Claim C10 — fallback to the default room -/

/-- Claim C10: a registered connection with no current room recorded has
its chat message persisted to and broadcast in the default room, and any
AI request it triggers targets the default room. -/
theorem default_room_fallback (st : ChatState) (db : DB) (sid : Nat) (text : Str)
    (now : Nat) (u : Str) (hreg : st.users sid = some u)
    (hroom : st.user_current_rooms sid = none) (hne : pyStrip text ≠ []) :
    (chat_message st db sid text now).1 =
      { db with messages := db.messages ++
          [⟨st.default_room_id, st.user_db_ids sid, pyStrip text, false, none⟩] } ∧
    Act.emit (.chat_msg ⟨st.default_room_id, st.user_db_ids sid, pyStrip text, false, none⟩)
        (.room st.default_room_id) ∈ (chat_message st db sid text now).2 ∧
    (∀ r, Act.enqueue r ∈ (chat_message st db sid text now).2 →
      r.room_id = st.default_room_id) := by
  simp only [chat_message, hreg, hroom]
  rw [if_neg hne]
  show _ ∧ _ ∧ _
  by_cases hd : detect_ai_mention (pyStrip text) = true
  · rw [if_pos hd]
    refine ⟨rfl, by simp [pyOrNat], ?_⟩
    intro r hr
    simp [pyOrNat] at hr
    subst hr
    rfl
  · rw [if_neg hd]
    refine ⟨rfl, by simp [pyOrNat], ?_⟩
    intro r hr
    simp at hr

/-- Witness for C10. -/
theorem default_room_fallback_witness :
    stA.users 1 = some ("alice".toList) ∧
    stA.user_current_rooms 1 = none ∧
    pyStrip ("hello".toList) ≠ [] ∧
    ((chat_message stA db0 1 ("hello".toList) 9).1 =
      { db0 with messages := db0.messages ++
          [⟨stA.default_room_id, stA.user_db_ids 1, pyStrip ("hello".toList), false, none⟩] } ∧
     Act.emit (.chat_msg ⟨stA.default_room_id, stA.user_db_ids 1,
          pyStrip ("hello".toList), false, none⟩)
        (.room stA.default_room_id) ∈ (chat_message stA db0 1 ("hello".toList) 9).2 ∧
     (∀ r, Act.enqueue r ∈ (chat_message stA db0 1 ("hello".toList) 9).2 →
        r.room_id = stA.default_room_id)) :=
  ⟨rfl, rfl, by decide,
   default_room_fallback stA db0 1 ("hello".toList) 9 ("alice".toList) rfl rfl (by decide)⟩
